import Mathlib

/-!
Verification of the teensy_oled repository (src/teensy_oled.c, most recent
iteration, lines 422-985 of the concatenated source file).

The program bit-bangs an I2C-style two-wire bus on two GPIO pins and drives
an SSD1306-class OLED display.  The master's externally visible behaviour is
the sequence of pin operations it performs (releasing a line, which floats
high, or pulling it low), together with the acknowledge bits it samples from
the peer.  We embed every bus operation as a function producing its list of
pin events; the peer is modelled by the acknowledge bits it supplies (one per
byte), and is assumed never to clock-stretch, so the busy-wait inside
`i2c_clock` terminates immediately and contributes no events.

Line states, the bits seen on the wire during clock-high phases, and the
bytes framed on the bus are all recovered from the event trace by the
observer functions `sclDrivenAfter` / `sdaDrivenAfter`, `clockHighBits` and
`decodeBytes` below.
-/

namespace TeensyOled

/-- A pin operation performed by the master: releasing a line (it then floats
high through the pull-up) or actively pulling it low.  `SCL` is the clock
line, `SDA` the data line, as in the source. -/
inductive PinEvent where
  | sclRelease : PinEvent
  | sclPulldown : PinEvent
  | sdaRelease : PinEvent
  | sdaPulldown : PinEvent
deriving DecidableEq

/-- Pin number of the clock line (source: `static const char SCL = 0`). -/
def SCL : Nat := 0

/-- Pin number of the data line (source: `static const char SDA = 1`). -/
def SDA : Nat := 1

/-- `i2c_release(pin)`: stop driving `pin`; the line floats high. -/
def i2c_release (pin : Nat) : List PinEvent :=
  [if pin = SCL then PinEvent.sclRelease else PinEvent.sdaRelease]

/-- `i2c_pulldown(pin)`: actively drive `pin` low. -/
def i2c_pulldown (pin : Nat) : List PinEvent :=
  [if pin = SCL then PinEvent.sclPulldown else PinEvent.sdaPulldown]

/-- `i2c_clock()`: cycle the clock high then low.  The busy-wait for a
clock-stretching receiver terminates immediately because the modelled peer
never holds the clock down. -/
def i2c_clock : List PinEvent :=
  i2c_release SCL ++ i2c_pulldown SCL

/-- `i2c_send_bit(i)`: set the data line up first (bit 1 releases it, bit 0
pulls it low), then cycle the clock. -/
def i2c_send_bit (i : Bool) : List PinEvent :=
  (if i then i2c_release SDA else i2c_pulldown SDA) ++ i2c_clock

/-- The mask loop of `i2c_send_byte`: `for (mask = 0x80; mask; mask >>= 1)
i2c_send_bit(c & mask)`, i.e. one `i2c_send_bit` per bit index of `ks`. -/
def i2c_send_bits (c : Nat) : List Nat → List PinEvent
  | [] => []
  | k :: ks => i2c_send_bit (c.testBit k) ++ i2c_send_bits c ks

/-- `i2c_send_byte(c)`: shift the 8 bits of `c` out MSB first, release the
data line for the acknowledge window, sample it (low iff the peer drives it,
i.e. iff `peerAck`), and acknowledge with one more clock cycle.  Returns the
trace and `acked`. -/
def i2c_send_byte (c : Nat) (peerAck : Bool) : List PinEvent × Bool :=
  (i2c_send_bits c [7, 6, 5, 4, 3, 2, 1, 0] ++ i2c_release SDA ++ i2c_clock,
   peerAck)

/-- `i2c_start(addr)`: data-low then clock-low start condition, then the
address byte; returns whether the address byte was acknowledged. -/
def i2c_start (addr : Nat) (peerAck : Bool) : List PinEvent × Bool :=
  (i2c_pulldown SDA ++ i2c_pulldown SCL ++ (i2c_send_byte addr peerAck).1,
   (i2c_send_byte addr peerAck).2)

/-- `i2c_stop()`: data-low, release clock, release data; both lines are left
released (idle). -/
def i2c_stop : List PinEvent :=
  i2c_pulldown SDA ++ i2c_release SCL ++ i2c_release SDA

/-- Whether the master still drives SCL low after the trace, given whether it
drove it at the start. -/
def sclDrivenAfter : List PinEvent → Bool → Bool
  | [], d => d
  | PinEvent.sclRelease :: es, _ => sclDrivenAfter es false
  | PinEvent.sclPulldown :: es, _ => sclDrivenAfter es true
  | _ :: es, d => sclDrivenAfter es d

/-- Whether the master still drives SDA low after the trace. -/
def sdaDrivenAfter : List PinEvent → Bool → Bool
  | [], d => d
  | PinEvent.sdaRelease :: es, _ => sdaDrivenAfter es false
  | PinEvent.sdaPulldown :: es, _ => sdaDrivenAfter es true
  | _ :: es, d => sdaDrivenAfter es d

/-- The level the master presents on SDA during each clock-high phase of the
trace (`true` = released / high, `false` = pulled low), given the level at
the start of the trace.  One entry per `sclRelease` event. -/
def clockHighBits : List PinEvent → Bool → List Bool
  | [], _ => []
  | PinEvent.sclRelease :: es, sda => sda :: clockHighBits es sda
  | PinEvent.sclPulldown :: es, sda => clockHighBits es sda
  | PinEvent.sdaRelease :: es, _ => clockHighBits es true
  | PinEvent.sdaPulldown :: es, _ => clockHighBits es false

/-- Reassemble a byte from its eight wire bits, MSB first. -/
def bitsToByte (bs : List Bool) : Nat :=
  bs.foldl (fun a b => 2 * a + (if b then 1 else 0)) 0

/-- Frame the clock-high bit stream into bytes as an I2C peer does: eight
data bits followed by one acknowledge slot per byte; a leftover group shorter
than nine bits is not a byte. -/
def decodeBytes : List Bool → List Nat
  | b7 :: b6 :: b5 :: b4 :: b3 :: b2 :: b1 :: b0 :: _ack :: rest =>
      bitsToByte [b7, b6, b5, b4, b3, b2, b1, b0] :: decodeBytes rest
  | _ => []

/-- Default build: `ALTERNATIVE_OLED_ADDRESS` not defined. -/
def OLED_SUB_ADDR : Nat := 0

/-- `OLED_ADDR = 0x78 | OLED_SUB_ADDR`. -/
def OLED_ADDR : Nat := 0x78 ||| OLED_SUB_ADDR

def OLED_CMD : Nat := 0x00

def OLED_DATA : Nat := 0x40

def OLED_SET_LOWER_COLUMN : Nat := 0x00

def OLED_SET_UPPER_COLUMN : Nat := 0x10

def OLED_SET_ADDR_MODE : Nat := 0x20

def OLED_SET_COL_ADDR : Nat := 0x21

def OLED_SET_PAGE_ADDR : Nat := 0x22

def OLED_SET_DISPLAY_START_LINE : Nat := 0x40

def OLED_SET_CONTRAST : Nat := 0x81

def OLED_SET_CHARGE_PUMP : Nat := 0x8d

def OLED_SET_SEGMENT_REMAP : Nat := 0xa0

def OLED_SET_ENTIRE_DISPLAY : Nat := 0xa4

def OLED_SET_INVERTED : Nat := 0xa6

def OLED_SET_MUX_RATIO : Nat := 0xa8

def OLED_SET_DISPLAY_ON_OFF : Nat := 0xae

def OLED_SET_PAGE_START_ADDR : Nat := 0xb0

def OLED_SET_COM_SCAN_DIR : Nat := 0xc0

def OLED_SET_DISPLAY_OFFSET : Nat := 0xd3

def OLED_SET_OSC_FREQ : Nat := 0xd5

def OLED_SET_COM_HW_CONF : Nat := 0xda

/-- Default build: `FLIPPED` not defined, so `HFLIP = 0`. -/
def HFLIP : Nat := 0

/-- Default build: `FLIPPED` not defined, so `VFLIP = 0`. -/
def VFLIP : Nat := 0

/-- The initialisation command sequence `oled_init_instrs`. -/
def oled_init_instrs : List Nat :=
  [ OLED_CMD,
    OLED_SET_MUX_RATIO, 0x1f,
    OLED_SET_DISPLAY_OFFSET, 0x00,
    OLED_SET_DISPLAY_START_LINE + 0x00,
    OLED_SET_SEGMENT_REMAP ||| HFLIP,
    OLED_SET_COM_SCAN_DIR ||| VFLIP,
    OLED_SET_COM_HW_CONF, 0x02,
    OLED_SET_CONTRAST, 0x7f,
    OLED_SET_ENTIRE_DISPLAY ||| 0x00,
    OLED_SET_INVERTED ||| 0x00,
    OLED_SET_OSC_FREQ, 0x80,
    OLED_SET_CHARGE_PUMP, 0x14,
    OLED_SET_DISPLAY_ON_OFF ||| 0x01 ]

/-- The full-screen addressing command sequence `oled_full_screen_instrs`. -/
def oled_full_screen_instrs : List Nat :=
  [ OLED_CMD,
    OLED_SET_ADDR_MODE, 0x00,
    OLED_SET_COL_ADDR, 0x00, 0x7f,
    OLED_SET_PAGE_ADDR, 0x00, 0x07 ]

/-- The data loop of `oled_sequence`: send each byte in turn, stopping after
the first byte whose acknowledge fails.  `ackOf n` is the peer's acknowledge
for the `n`-th byte of the transaction (the address byte is byte 0).
Returns the trace and `i == count`, i.e. whether every byte was acked. -/
def oled_sequence_loop (ackOf : Nat → Bool) : List Nat → Nat → List PinEvent × Bool
  | [], _ => ([], true)
  | d :: ds, n =>
      let r := i2c_send_byte d (ackOf n)
      if r.2 then
        let rest := oled_sequence_loop ackOf ds (n + 1)
        (r.1 ++ rest.1, rest.2)
      else
        (r.1, false)

/-- `oled_sequence(data, count)`: start; if the address byte is not acked,
return failure immediately (no stop).  Otherwise send the data bytes until
the first nack, emit a stop, and return whether everything was acked. -/
def oled_sequence (data : List Nat) (ackOf : Nat → Bool) : List PinEvent × Bool :=
  let s := i2c_start OLED_ADDR (ackOf 0)
  if !s.2 then
    (s.1, false)
  else
    let r := oled_sequence_loop ackOf data 1
    (s.1 ++ r.1 ++ i2c_stop, r.2)

/-- `oled_init()`. -/
def oled_init (ackOf : Nat → Bool) : List PinEvent × Bool :=
  oled_sequence oled_init_instrs ackOf

/-- The `128 * 4` zero data bytes sent by `oled_clear`, one `i2c_send_byte`
per iteration (the acknowledge result is discarded). -/
def i2c_send_zeros (ackOf : Nat → Bool) : Nat → Nat → List PinEvent
  | 0, _ => []
  | n + 1, k => (i2c_send_byte 0x00 (ackOf k)).1 ++ i2c_send_zeros ackOf n (k + 1)

/-- `oled_clear()`: the full-screen addressing sequence (whose result is
discarded), then one data transaction streaming `128 * 4` zero bytes.
`ackOf` supplies the peer acknowledges of the first transaction, `ackOf2`
those of the second. -/
def oled_clear (ackOf ackOf2 : Nat → Bool) : List PinEvent :=
  (oled_sequence oled_full_screen_instrs ackOf).1 ++
  (i2c_start OLED_ADDR (ackOf2 0)).1 ++
  (i2c_send_byte OLED_DATA (ackOf2 1)).1 ++
  i2c_send_zeros ackOf2 (128 * 4) 2 ++
  i2c_stop

/-- `oled_set_page_mode(page, x)`: select page addressing mode, the page
start address, then the column's upper nibble command followed by its lower
nibble command, in one transaction.  All acknowledge results are discarded. -/
def oled_set_page_mode (page x : Nat) (ackOf : Nat → Bool) : List PinEvent :=
  (i2c_start OLED_ADDR (ackOf 0)).1 ++
  (i2c_send_byte OLED_CMD (ackOf 1)).1 ++
  (i2c_send_byte OLED_SET_ADDR_MODE (ackOf 2)).1 ++
  (i2c_send_byte 0x02 (ackOf 3)).1 ++
  (i2c_send_byte (OLED_SET_PAGE_START_ADDR ||| page) (ackOf 4)).1 ++
  (i2c_send_byte (OLED_SET_UPPER_COLUMN ||| (x >>> 4)) (ackOf 5)).1 ++
  (i2c_send_byte (OLED_SET_LOWER_COLUMN ||| (x &&& 0x0f)) (ackOf 6)).1 ++
  i2c_stop

/-- `oled_contrast(c)`: one command transaction setting the contrast. -/
def oled_contrast (c : Nat) (ackOf : Nat → Bool) : List PinEvent :=
  (i2c_start OLED_ADDR (ackOf 0)).1 ++
  (i2c_send_byte OLED_CMD (ackOf 1)).1 ++
  (i2c_send_byte OLED_SET_CONTRAST (ackOf 2)).1 ++
  (i2c_send_byte c (ackOf 3)).1 ++
  i2c_stop

lemma i2c_send_byte_ack (c : Nat) (a : Bool) : (i2c_send_byte c a).2 = a := rfl

lemma i2c_send_byte_trace (c : Nat) (a a2 : Bool) :
    (i2c_send_byte c a).1 = (i2c_send_byte c a2).1 := rfl

lemma i2c_start_ack (addr : Nat) (a : Bool) : (i2c_start addr a).2 = a := rfl

lemma i2c_start_trace (addr : Nat) (a a2 : Bool) :
    (i2c_start addr a).1 = (i2c_start addr a2).1 := rfl

lemma clockHighBits_send_bit (i : Bool) (rest : List PinEvent) (b : Bool) :
    clockHighBits (i2c_send_bit i ++ rest) b = i :: clockHighBits rest i := by
  cases i <;> rfl

lemma clockHighBits_send_bits (c : Nat) (ks : List Nat) (rest : List PinEvent) (b : Bool) :
    clockHighBits (i2c_send_bits c ks ++ rest) b =
      ks.map c.testBit ++ clockHighBits rest ((ks.map c.testBit).getLastD b) := by
  induction ks generalizing b with
  | nil => rfl
  | cons k ks ih =>
      simp only [i2c_send_bits, List.append_assoc, clockHighBits_send_bit, ih,
        List.map_cons, List.getLastD_cons, List.cons_append]

lemma clockHighBits_send_byte (c : Nat) (a : Bool) (rest : List PinEvent) (b : Bool) :
    clockHighBits ((i2c_send_byte c a).1 ++ rest) b =
      c.testBit 7 :: c.testBit 6 :: c.testBit 5 :: c.testBit 4 ::
      c.testBit 3 :: c.testBit 2 :: c.testBit 1 :: c.testBit 0 ::
      true :: clockHighBits rest true := by
  have h : clockHighBits ((i2c_send_byte c a).1 ++ rest) b =
      clockHighBits (i2c_send_bits c [7, 6, 5, 4, 3, 2, 1, 0] ++
        (i2c_release SDA ++ i2c_clock ++ rest)) b := by
    simp only [i2c_send_byte, List.append_assoc]
  rw [h, clockHighBits_send_bits]
  rfl

lemma clockHighBits_start (addr : Nat) (a : Bool) (rest : List PinEvent) (b : Bool) :
    clockHighBits ((i2c_start addr a).1 ++ rest) b =
      addr.testBit 7 :: addr.testBit 6 :: addr.testBit 5 :: addr.testBit 4 ::
      addr.testBit 3 :: addr.testBit 2 :: addr.testBit 1 :: addr.testBit 0 ::
      true :: clockHighBits rest true := by
  exact clockHighBits_send_byte addr a rest false

lemma clockHighBits_stop (b : Bool) : clockHighBits i2c_stop b = [false] := rfl

set_option maxRecDepth 4096 in
lemma bitsToByte_testBits :
    ∀ c, c < 256 →
      bitsToByte [c.testBit 7, c.testBit 6, c.testBit 5, c.testBit 4,
                  c.testBit 3, c.testBit 2, c.testBit 1, c.testBit 0] = c := by
  decide

lemma decodeBytes_send_byte (c : Nat) (hc : c < 256) (a : Bool)
    (rest : List PinEvent) (b : Bool) :
    decodeBytes (clockHighBits ((i2c_send_byte c a).1 ++ rest) b) =
      c :: decodeBytes (clockHighBits rest true) := by
  rw [clockHighBits_send_byte]
  show bitsToByte [c.testBit 7, c.testBit 6, c.testBit 5, c.testBit 4,
    c.testBit 3, c.testBit 2, c.testBit 1, c.testBit 0] ::
    decodeBytes (clockHighBits rest true) = _
  rw [bitsToByte_testBits c hc]

lemma decodeBytes_start (addr : Nat) (haddr : addr < 256) (a : Bool)
    (rest : List PinEvent) (b : Bool) :
    decodeBytes (clockHighBits ((i2c_start addr a).1 ++ rest) b) =
      addr :: decodeBytes (clockHighBits rest true) := by
  rw [clockHighBits_start]
  show bitsToByte [addr.testBit 7, addr.testBit 6, addr.testBit 5, addr.testBit 4,
    addr.testBit 3, addr.testBit 2, addr.testBit 1, addr.testBit 0] ::
    decodeBytes (clockHighBits rest true) = _
  rw [bitsToByte_testBits addr haddr]

lemma decodeBytes_stop (b : Bool) : decodeBytes (clockHighBits i2c_stop b) = [] := rfl

lemma sclDrivenAfter_append (t1 t2 : List PinEvent) (d : Bool) :
    sclDrivenAfter (t1 ++ t2) d = sclDrivenAfter t2 (sclDrivenAfter t1 d) := by
  induction t1 generalizing d with
  | nil => rfl
  | cons e es ih => cases e <;> simpa [sclDrivenAfter] using ih _

lemma sdaDrivenAfter_append (t1 t2 : List PinEvent) (d : Bool) :
    sdaDrivenAfter (t1 ++ t2) d = sdaDrivenAfter t2 (sdaDrivenAfter t1 d) := by
  induction t1 generalizing d with
  | nil => rfl
  | cons e es ih => cases e <;> simpa [sdaDrivenAfter] using ih _

/-- The glyph index computed by `oled_write`, `oled_marquee`,
`oled_bungee_marquee_aux` and `oled_wobble` from one message byte:
`idx = (32 <= c && c < 128) ? c - 32 : 3`.  `char` is signed 8-bit on the
AVR target, so a byte value `c ≥ 128` represents `c - 256` and fails the
`32 <= c` test.  The glyph bitmap is the 8-byte slice of `charset` starting
at `idx * 8`. -/
def glyph_index (c : Nat) : Nat :=
  let ci : Int := if c % 256 < 128 then (c % 256 : Int) else (c % 256 : Int) - 256
  if 32 ≤ ci ∧ ci < 128 then (ci - 32).toNat else 3

/-- The offset update at the end of `oled_marquee` (source lines 811-816):
`*offset += speed; if (str[*offset >> 3] == '\0') *offset &= 7;`.
The message is the list of its non-NUL bytes; reading it at its length (or
beyond) yields the terminator, modelled by `List.getD _ 0`. -/
def oled_marquee_offset_update (str : List Nat) (speed offset : Nat) : Nat :=
  let offset2 := offset + speed
  if str.getD (offset2 >>> 3) 0 = 0 then offset2 &&& 7 else offset2

/-- The loop of `oled_bungee_marquee_aux` (source lines 818-855), flattened
to one glyph slice per recursive step.  `midpoint` is `w >> 1` of the initial
width.  For the current slice the repeat factor is `1 + scale / 8`; the slice
byte is sent that many times, returning as soon as `w` reaches 0 (before the
scale update, exactly as the source's early `return`).  Otherwise the scale
is stepped by `+1` while the remaining width exceeds the midpoint and by `-1`
afterwards, clamped at 0 (`Nat` subtraction is the clamp).  Returns the data
bytes sent and, as a second component, the per-slice list of
`(repeat factor, remaining width after the slice)` pairs.  Requires `w ≥ 1`
(the source loops essentially forever when entered with `w = 0`). -/
def oled_bungee_marquee_aux_loop (charset str : List Nat) (midpoint : Nat)
    (strIdx sub w scale : Nat) : List Nat × List (Nat × Nat) :=
  if hw : w = 0 then ([], [])
  else
    let c := str.getD strIdx 0
    let b := charset.getD (glyph_index c * 8 + sub) 0
    let f := 1 + scale / 8
    let m := min f w
    let w2 := w - m
    if w2 = 0 then (List.replicate m (b % 256), [(f, w2)])
    else
      let scale2 := if midpoint < w2 then scale + 1 else scale - 1
      let pos :=
        if sub + 1 < 8 then (strIdx, sub + 1)
        else if str.getD (strIdx + 1) 0 = 0 then (0, 0)
        else (strIdx + 1, 0)
      let next := oled_bungee_marquee_aux_loop charset str midpoint pos.1 pos.2 w2 scale2
      (List.replicate m (b % 256) ++ next.1, (f, w2) :: next.2)
termination_by w
decreasing_by
  all_goals
    have h1 : 1 ≤ min (1 + scale / 8) w :=
      le_min (Nat.le_add_right 1 _) (Nat.one_le_iff_ne_zero.mpr hw)
    omega

/-- `oled_bungee_marquee_aux(str, offset, w)`: `midpoint = w >> 1`,
`scale = 0`, glyph position `offset >> 3`, intra-glyph column
`offset & 0x07`. -/
def oled_bungee_marquee_aux (charset str : List Nat) (offset w : Nat) :
    List Nat × List (Nat × Nat) :=
  oled_bungee_marquee_aux_loop charset str (w >>> 1) (offset >>> 3) (offset &&& 0x07) w 0

/-- Arithmetic right shift of a byte interpreted as a signed `char` (the AVR
`*ptr >> offset` with `char` signed): valid for `b < 256` and shift `s ≤ 8`;
the result is again reported as a byte. -/
def sar8 (b s : Nat) : Nat :=
  if b % 256 < 128 then (b % 256) >>> s
  else ((0xff00 + b % 256) >>> s) &&& 0xff

/-- Modelled from the spec: `cos_table_64_4` lives in `cos_table.h`, which is
not part of the sources; the spec describes it as a "fixed 64-entry lookup
from phase index to a shift amount in [0,8]".  A list satisfies this
predicate iff it is such a table. -/
def cos_table_spec (tbl : List Nat) : Prop :=
  tbl.length = 64 ∧ ∀ v ∈ tbl, v ≤ 8

instance (tbl : List Nat) : Decidable (cos_table_spec tbl) := by
  unfold cos_table_spec; infer_instance

/-- The upper-page data loop of `oled_wobble` (source lines 884-892): for
each glyph, each of its 8 column bytes is left-shifted by
`cos_table_64_4[shift++ & 0x3f]` and sent.  `shift` starts at `*phase`; the
`char` counter wraps mod 256, which is invisible through the `& 0x3f` mask,
so a `Nat` counter is used.  Returns the bytes sent and, as a second
component, the list of shift amounts used, one per output column. -/
def oled_wobble_upper (cosTbl charset : List Nat) : List Nat → Nat → List Nat × List Nat
  | [], _ => ([], [])
  | c :: cs, shift =>
      let idx := glyph_index c
      let shifts := (List.range 8).map fun i => cosTbl.getD ((shift + i) &&& 0x3f) 0
      let bytes := (List.range 8).map fun i =>
        (charset.getD (idx * 8 + i) 0 <<< cosTbl.getD ((shift + i) &&& 0x3f) 0) % 256
      let rest := oled_wobble_upper cosTbl charset cs (shift + 8)
      (bytes ++ rest.1, shifts ++ rest.2)

/-- The lower-page data loop of `oled_wobble` (source lines 902-910): same
glyph bytes, but right-shifted by `8 - cos_table_64_4[shift++ & 0x3f]` (an
arithmetic shift, since the glyph byte is a signed `char`).  `shift` again
starts at `*phase`.  Returns the bytes sent and the list of shift amounts
used. -/
def oled_wobble_lower (cosTbl charset : List Nat) : List Nat → Nat → List Nat × List Nat
  | [], _ => ([], [])
  | c :: cs, shift =>
      let idx := glyph_index c
      let shifts := (List.range 8).map fun i => 8 - cosTbl.getD ((shift + i) &&& 0x3f) 0
      let bytes := (List.range 8).map fun i =>
        sar8 (charset.getD (idx * 8 + i) 0) (8 - cosTbl.getD ((shift + i) &&& 0x3f) 0)
      let rest := oled_wobble_lower cosTbl charset cs (shift + 8)
      (bytes ++ rest.1, shifts ++ rest.2)

lemma sclDrivenAfter_stop (d : Bool) : sclDrivenAfter i2c_stop d = false := rfl

lemma sdaDrivenAfter_stop (d : Bool) : sdaDrivenAfter i2c_stop d = false := rfl

/-- The data bytes that `oled_sequence`'s loop actually puts on the wire when
byte `n`, `n+1`, ... receive the acknowledges `ackOf n`, `ackOf (n+1)`, ...:
every byte up to and including the first nacked one. -/
def ackedTake (ackOf : Nat → Bool) : List Nat → Nat → List Nat
  | [], _ => []
  | d :: ds, n => if ackOf n then d :: ackedTake ackOf ds (n + 1) else [d]

lemma oled_sequence_loop_ok (ackOf : Nat → Bool) :
    ∀ (ds : List Nat) (n : Nat),
      ((oled_sequence_loop ackOf ds n).2 = true ↔
        ∀ i, i < ds.length → ackOf (n + i) = true) := by
  intro ds
  induction ds with
  | nil => intro n; simp [oled_sequence_loop]
  | cons d ds ih =>
      intro n
      by_cases h : ackOf n = true
      · simp only [oled_sequence_loop, i2c_send_byte_ack, h, if_true]
        rw [ih (n + 1)]
        constructor
        · intro hall i hi
          match i with
          | 0 => simpa using h
          | j + 1 =>
              have := hall j (by simpa [Nat.succ_lt_succ_iff] using hi)
              simpa [Nat.add_assoc, Nat.add_comm 1 j] using this
        · intro hall i hi
          have := hall (i + 1) (by simpa [Nat.succ_lt_succ_iff] using hi)
          simpa [Nat.add_assoc, Nat.add_comm 1 i] using this
      · simp only [oled_sequence_loop, i2c_send_byte_ack, h, Bool.false_eq_true, if_false]
        constructor
        · intro hfalse; exact absurd hfalse (by simp)
        · intro hall; exact absurd (by simpa using hall 0 (by simp)) h

lemma oled_sequence_loop_decode (ackOf : Nat → Bool) :
    ∀ (ds : List Nat) (n : Nat), (∀ d ∈ ds, d < 256) →
      decodeBytes (clockHighBits ((oled_sequence_loop ackOf ds n).1 ++ i2c_stop) true) =
        ackedTake ackOf ds n := by
  intro ds
  induction ds with
  | nil => intro n _; simp [oled_sequence_loop, ackedTake, decodeBytes_stop]
  | cons d ds ih =>
      intro n hd
      have hd0 : d < 256 := hd d (by simp)
      by_cases h : ackOf n = true
      · simp only [oled_sequence_loop, i2c_send_byte_ack, h, if_true, ackedTake,
          List.append_assoc]
        rw [decodeBytes_send_byte d hd0, ih (n + 1) (fun x hx => hd x (by simp [hx]))]
      · simp only [oled_sequence_loop, i2c_send_byte_ack, h, Bool.false_eq_true, if_false,
          ackedTake]
        rw [decodeBytes_send_byte d hd0]
        rfl

lemma i2c_send_zeros_ack_indep (ackOf ackOf2 : Nat → Bool) :
    ∀ (n k : Nat), i2c_send_zeros ackOf n k = i2c_send_zeros ackOf2 n k := by
  intro n
  induction n with
  | zero => intro k; rfl
  | succ n ih =>
      intro k
      simp only [i2c_send_zeros, ih (k + 1), i2c_send_byte_trace 0 (ackOf k) (ackOf2 k)]

lemma i2c_send_zeros_decode (ackOf : Nat → Bool) :
    ∀ (n k : Nat),
      decodeBytes (clockHighBits (i2c_send_zeros ackOf n k ++ i2c_stop) true) =
        List.replicate n 0 := by
  intro n
  induction n with
  | zero => intro k; simp [i2c_send_zeros, decodeBytes_stop]
  | succ n ih =>
      intro k
      simp only [i2c_send_zeros, List.append_assoc]
      rw [decodeBytes_send_byte 0 (by decide), ih (k + 1), List.replicate_succ]

/-- The second transaction of `oled_clear`: the data-mode prefix followed by
the `128 * 4` zero bytes and a stop.  Its pin trace does not depend on the
peer's acknowledges, so it is stated with an always-acknowledging peer. -/
def oled_clear_data_part : List PinEvent :=
  (i2c_start OLED_ADDR true).1 ++
  (i2c_send_byte OLED_DATA true).1 ++
  i2c_send_zeros (fun _ => true) (128 * 4) 2 ++
  i2c_stop

/-- C1: the claim states that `oled_sequence` calls `stop` and leaves the bus
released on the nack-abort path, in particular when the address byte sent by
`start` is not acknowledged.  The code instead returns immediately on an
address nack: evaluated with a peer that acknowledges nothing, the
transaction returns failure, the final event is the clock pulldown ending the
address byte (a stop condition would end by releasing the data line), and the
master is left holding the clock line low, so the bus is not released. -/
theorem claim_C1_addr_nack_eval :
    (oled_sequence [0x00] (fun _ => false)).2 = false ∧
    (oled_sequence [0x00] (fun _ => false)).1.getLast? = some PinEvent.sclPulldown ∧
    sclDrivenAfter (oled_sequence [0x00] (fun _ => false)).1 false = true ∧
    sclDrivenAfter i2c_stop true = false := by decide

/-- C2 counterexample: the claim maps every code outside [32,127) to the
fallback slice (index 3), in particular c = 127; the code's test is
`c < 128`, so 127 selects the regular glyph slice at index 95. -/
theorem claim_C2_counterexample :
    glyph_index 127 = 95 ∧ ¬ glyph_index 127 = 3 := by decide

set_option maxRecDepth 4096 in
/-- C2 (amended): the glyph lookup maps character code c in [32,128) to the
table slice at offset (c-32)*8, and every other code - including c = 31 and
c = 200 - to the fixed fallback slice (index 3); c = 127 in particular maps
to the regular slice at offset 760, not the fallback. -/
theorem claim_C2_amended :
    ∀ c, c < 256 →
      ((32 ≤ c ∧ c < 128) → glyph_index c * 8 = (c - 32) * 8) ∧
      (¬ (32 ≤ c ∧ c < 128) → glyph_index c = 3) ∧
      glyph_index 31 = 3 ∧ glyph_index 127 * 8 = 760 ∧ glyph_index 200 = 3 := by
  decide

/-- C2 witness: the amended theorem evaluated at c = 65 and at c = 200. -/
theorem claim_C2_witness :
    ((65 : Nat) < 256 ∧
      (((32 ≤ 65 ∧ (65 : Nat) < 128) → glyph_index 65 * 8 = (65 - 32) * 8) ∧
        (¬ ((32 : Nat) ≤ 65 ∧ (65 : Nat) < 128) → glyph_index 65 = 3) ∧
        glyph_index 31 = 3 ∧ glyph_index 127 * 8 = 760 ∧ glyph_index 200 = 3)) ∧
    ((200 : Nat) < 256 ∧
      (((32 ≤ 200 ∧ (200 : Nat) < 128) → glyph_index 200 * 8 = (200 - 32) * 8) ∧
        (¬ ((32 : Nat) ≤ 200 ∧ (200 : Nat) < 128) → glyph_index 200 = 3) ∧
        glyph_index 31 = 3 ∧ glyph_index 127 * 8 = 760 ∧ glyph_index 200 = 3)) :=
  ⟨⟨by decide, claim_C2_amended 65 (by decide)⟩,
   ⟨by decide, claim_C2_amended 200 (by decide)⟩⟩

/-- C3: with the orientation flags at their default (HFLIP = 0, VFLIP = 0)
and a peer that acknowledges every byte, `oled_init` puts on the wire, after
the address byte, exactly the nineteen claimed command bytes and nothing
else, and reports success. -/
theorem claim_C3 :
    decodeBytes (clockHighBits (oled_init (fun _ => true)).1 true) =
      OLED_ADDR :: [0x00, 0xA8, 0x1F, 0xD3, 0x00, 0x40, 0xA0, 0xC0, 0xDA, 0x02,
        0x81, 0x7F, 0xA4, 0xA6, 0xD5, 0x80, 0x8D, 0x14, 0xAF] ∧
    (oled_init (fun _ => true)).2 = true := by
  constructor
  · decide
  · rfl

/-- C4: `i2c_send_byte` drives exactly 8 data bits MSB first on the wire;
for the byte 0xA5 the levels presented during the eight data clock-high
phases are 1,0,1,0,0,1,0,1, the ninth clock-high phase (the acknowledge
window) has the data line released, and the returned acknowledge is exactly
whether the peer pulled the line low. -/
theorem claim_C4 :
    ∀ (a b : Bool),
      clockHighBits (i2c_send_byte 0xa5 a).1 b =
        [true, false, true, false, false, true, false, true, true] ∧
      (i2c_send_byte 0xa5 a).2 = a := by decide

/-- C6: for the two-glyph message "AB" (codes 65, 66; 16 bit-positions) with
speed 2 and initial offset 0, iterating the `oled_marquee` offset-update rule
returns the offset to its initial value after exactly 8 calls: the 8th
iterate is 0 again and no earlier positive iterate is. -/
theorem claim_C6 :
    (fun o => oled_marquee_offset_update [65, 66] 2 o)^[8] 0 = 0 ∧
    ∀ k, k < 8 → 0 < k →
      (fun o => oled_marquee_offset_update [65, 66] 2 o)^[k] 0 ≠ 0 := by
  decide

/-- C5: for every page in [0,8) and column x in [0,128), the page-window
setup transaction puts on the wire, after the address byte: the command
prefix, the page-addressing-mode command and its operand, the page-start
command, then the upper-nibble column command strictly before the
lower-nibble column command. -/
theorem claim_C5 (page x : Nat) (ackOf : Nat → Bool) (b : Bool)
    (hp : page < 8) (hx : x < 128) :
    decodeBytes (clockHighBits (oled_set_page_mode page x ackOf) b) =
      [OLED_ADDR, OLED_CMD, OLED_SET_ADDR_MODE, 0x02,
       OLED_SET_PAGE_START_ADDR ||| page,
       OLED_SET_UPPER_COLUMN ||| (x >>> 4),
       OLED_SET_LOWER_COLUMN ||| (x &&& 0x0f)] := by
  have h1 : OLED_SET_PAGE_START_ADDR ||| page < 256 :=
    Nat.or_lt_two_pow (n := 8) (by decide) (by omega)
  have hx4 : x >>> 4 ≤ x := by
    rw [Nat.shiftRight_eq_div_pow]; exact Nat.div_le_self x (2 ^ 4)
  have h2 : OLED_SET_UPPER_COLUMN ||| (x >>> 4) < 256 :=
    Nat.or_lt_two_pow (n := 8) (by decide) (by omega)
  have hxand : x &&& 0x0f ≤ 0x0f := Nat.and_le_right
  have h3 : OLED_SET_LOWER_COLUMN ||| (x &&& 0x0f) < 256 :=
    Nat.or_lt_two_pow (n := 8) (by decide) (by omega)
  unfold oled_set_page_mode
  simp only [List.append_assoc]
  rw [decodeBytes_start OLED_ADDR (by decide),
      decodeBytes_send_byte OLED_CMD (by decide),
      decodeBytes_send_byte OLED_SET_ADDR_MODE (by decide),
      decodeBytes_send_byte 0x02 (by decide),
      decodeBytes_send_byte _ h1,
      decodeBytes_send_byte _ h2,
      decodeBytes_send_byte _ h3,
      decodeBytes_stop]

/-- C5 witness: the theorem evaluated at page 3, column 100. -/
theorem claim_C5_witness :
    (3 : Nat) < 8 ∧ (100 : Nat) < 128 ∧
    decodeBytes (clockHighBits (oled_set_page_mode 3 100 (fun _ => true)) true) =
      [OLED_ADDR, OLED_CMD, OLED_SET_ADDR_MODE, 0x02,
       OLED_SET_PAGE_START_ADDR ||| 3,
       OLED_SET_UPPER_COLUMN ||| (100 >>> 4),
       OLED_SET_LOWER_COLUMN ||| (100 &&& 0x0f)] :=
  ⟨by decide, by decide,
   claim_C5 3 100 (fun _ => true) true (by decide) (by decide)⟩

/-- C10: for a non-empty NUL-free message, any speed in [1,8] and any offset
whose glyph index lies inside the message, the `oled_marquee` offset update
reads the message only at indices up to the terminator (index `str.length`),
and the updated offset again points at a non-terminator character. -/
theorem claim_C10 (str : List Nat) (speed offset : Nat) (hne : str ≠ [])
    (hnz : ∀ c ∈ str, c ≠ 0) (hs1 : 1 ≤ speed) (hs8 : speed ≤ 8)
    (hpre : str.getD (offset >>> 3) 0 ≠ 0) :
    (offset + speed) >>> 3 ≤ str.length ∧
    str.getD (oled_marquee_offset_update str speed offset >>> 3) 0 ≠ 0 := by
  have hidx : offset >>> 3 < str.length := by
    by_contra hcon
    push_neg at hcon
    exact hpre (List.getD_eq_default _ _ hcon)
  have hdiv : offset >>> 3 = offset / 8 := by
    rw [Nat.shiftRight_eq_div_pow]
  have hdiv2 : (offset + speed) >>> 3 = (offset + speed) / 8 := by
    rw [Nat.shiftRight_eq_div_pow]
  have hoff : offset < str.length * 8 := by
    rw [hdiv] at hidx
    exact (Nat.div_lt_iff_lt_mul (by norm_num)).mp hidx
  have hbound : (offset + speed) >>> 3 ≤ str.length := by
    rw [hdiv2]
    have hlt : offset + speed < (str.length + 1) * 8 := by omega
    have := (Nat.div_lt_iff_lt_mul (show 0 < 8 by norm_num)).mpr hlt
    omega
  refine ⟨hbound, ?_⟩
  simp only [oled_marquee_offset_update]
  by_cases hterm : str.getD ((offset + speed) >>> 3) 0 = 0
  · rw [if_pos hterm]
    have hand : (offset + speed) &&& 7 = (offset + speed) % 8 := by
      have := Nat.and_pow_two_sub_one_eq_mod (offset + speed) 3
      simpa using this
    have h0 : ((offset + speed) &&& 7) >>> 3 = 0 := by
      rw [hand, Nat.shiftRight_eq_div_pow]
      exact Nat.div_eq_of_lt (by simpa using Nat.mod_lt _ (by norm_num))
    rw [h0]
    have hlen : 0 < str.length := List.length_pos.mpr hne
    rw [List.getD_eq_getElem str 0 hlen]
    exact hnz _ (List.getElem_mem hlen)
  · rw [if_neg hterm]
    exact hterm

/-- C10 witness: the theorem evaluated for the message "AB", speed 2,
offset 14. -/
theorem claim_C10_witness :
    ([65, 66] : List Nat) ≠ [] ∧ (∀ c ∈ ([65, 66] : List Nat), c ≠ 0) ∧
    (1 : Nat) ≤ 2 ∧ (2 : Nat) ≤ 8 ∧
    ([65, 66] : List Nat).getD (14 >>> 3) 0 ≠ 0 ∧
    ((14 + 2) >>> 3 ≤ ([65, 66] : List Nat).length ∧
      ([65, 66] : List Nat).getD (oled_marquee_offset_update [65, 66] 2 14 >>> 3) 0 ≠ 0) :=
  ⟨by decide, by decide, by decide, by decide, by decide,
   claim_C10 [65, 66] 2 14 (by decide) (by decide) (by decide) (by decide) (by decide)⟩

/-- C9: the byte-sequence sender returns success iff the address byte and
every payload byte were acknowledged, and it stops sending further payload
bytes after the first nack (the wire carries the address byte followed by
the payload up to and including the first nacked byte).  `oled_clear`
discards all acknowledge results: whatever the peer answers, it always runs
its full data transaction - the data-mode prefix followed by all 128*4 zero
bytes - and leaves the bus released; `oled_contrast` likewise always puts
its complete command sequence on the wire regardless of acknowledges.
`oled_set_page_mode` and the renderers' data loops never inspect an
acknowledge by construction. -/
theorem claim_C9 (data : List Nat) (ackOf ackOf2 ackOf3 : Nat → Bool) (b : Bool)
    (c : Nat) (hdata : ∀ d ∈ data, d < 256) (hc : c < 256) :
    ((oled_sequence data ackOf).2 = true ↔
      (ackOf 0 = true ∧ ∀ i, i < data.length → ackOf (i + 1) = true)) ∧
    (ackOf 0 = true →
      decodeBytes (clockHighBits (oled_sequence data ackOf).1 b) =
        OLED_ADDR :: ackedTake ackOf data 1) ∧
    (ackOf 0 = false →
      decodeBytes (clockHighBits (oled_sequence data ackOf).1 b) = [OLED_ADDR]) ∧
    oled_clear ackOf ackOf2 =
      (oled_sequence oled_full_screen_instrs ackOf).1 ++ oled_clear_data_part ∧
    decodeBytes (clockHighBits oled_clear_data_part b) =
      OLED_ADDR :: OLED_DATA :: List.replicate (128 * 4) 0 ∧
    sclDrivenAfter oled_clear_data_part true = false ∧
    sdaDrivenAfter oled_clear_data_part true = false ∧
    decodeBytes (clockHighBits (oled_contrast c ackOf3) b) =
      [OLED_ADDR, OLED_CMD, OLED_SET_CONTRAST, c] := by
  refine ⟨?_, ?_, ?_, ?_, ?_, ?_, ?_, ?_⟩
  · by_cases h0 : ackOf 0 = true
    · simp only [oled_sequence, i2c_start_ack, h0, Bool.not_true, Bool.false_eq_true,
        if_false]
      rw [oled_sequence_loop_ok ackOf data 1]
      constructor
      · intro hall
        exact ⟨trivial, fun i hi => by simpa [Nat.add_comm] using hall i hi⟩
      · intro hall i hi
        simpa [Nat.add_comm] using hall.2 i hi
    · simp only [oled_sequence, i2c_start_ack, h0]
      simp only [Bool.not_eq_true] at h0
      simp [h0]
  · intro h0
    simp only [oled_sequence, i2c_start_ack, h0, Bool.not_true, Bool.false_eq_true,
      if_false, List.append_assoc]
    rw [decodeBytes_start OLED_ADDR (by decide)]
    rw [oled_sequence_loop_decode ackOf data 1 hdata]
  · intro h0
    simp only [oled_sequence, i2c_start_ack, h0, Bool.not_false, if_true]
    rw [← List.append_nil (i2c_start OLED_ADDR false).1,
      decodeBytes_start OLED_ADDR (by decide)]
    rfl
  · simp only [oled_clear, oled_clear_data_part,
      i2c_send_zeros_ack_indep ackOf2 (fun _ => true) (128 * 4) 2,
      i2c_start_trace OLED_ADDR (ackOf2 0) true,
      i2c_send_byte_trace OLED_DATA (ackOf2 1) true, List.append_assoc]
  · simp only [oled_clear_data_part, List.append_assoc]
    rw [decodeBytes_start OLED_ADDR (by decide),
      decodeBytes_send_byte OLED_DATA (by decide),
      i2c_send_zeros_decode]
  · simp only [oled_clear_data_part, List.append_assoc]
    rw [sclDrivenAfter_append, sclDrivenAfter_append, sclDrivenAfter_append,
      sclDrivenAfter_stop]
  · simp only [oled_clear_data_part, List.append_assoc]
    rw [sdaDrivenAfter_append, sdaDrivenAfter_append, sdaDrivenAfter_append,
      sdaDrivenAfter_stop]
  · simp only [oled_contrast, List.append_assoc]
    rw [decodeBytes_start OLED_ADDR (by decide),
      decodeBytes_send_byte OLED_CMD (by decide),
      decodeBytes_send_byte OLED_SET_CONTRAST (by decide),
      decodeBytes_send_byte c hc,
      decodeBytes_stop]

/-- C9 witness: the theorem evaluated for the one-byte payload [0x11] with an
always-acknowledging peer and contrast operand 0x30. -/
theorem claim_C9_witness :
    (∀ d ∈ ([0x11] : List Nat), d < 256) ∧ (0x30 : Nat) < 256 ∧
    (((oled_sequence [0x11] (fun _ => true)).2 = true ↔
      ((fun _ => true : Nat → Bool) 0 = true ∧
        ∀ i, i < ([0x11] : List Nat).length → (fun _ => true : Nat → Bool) (i + 1) = true)) ∧
    ((fun _ => true : Nat → Bool) 0 = true →
      decodeBytes (clockHighBits (oled_sequence [0x11] (fun _ => true)).1 true) =
        OLED_ADDR :: ackedTake (fun _ => true) [0x11] 1) ∧
    ((fun _ => true : Nat → Bool) 0 = false →
      decodeBytes (clockHighBits (oled_sequence [0x11] (fun _ => true)).1 true) =
        [OLED_ADDR]) ∧
    oled_clear (fun _ => true) (fun _ => true) =
      (oled_sequence oled_full_screen_instrs (fun _ => true)).1 ++ oled_clear_data_part ∧
    decodeBytes (clockHighBits oled_clear_data_part true) =
      OLED_ADDR :: OLED_DATA :: List.replicate (128 * 4) 0 ∧
    sclDrivenAfter oled_clear_data_part true = false ∧
    sdaDrivenAfter oled_clear_data_part true = false ∧
    decodeBytes (clockHighBits (oled_contrast 0x30 (fun _ => true)) true) =
      [OLED_ADDR, OLED_CMD, OLED_SET_CONTRAST, 0x30]) :=
  ⟨by decide, by decide,
   claim_C9 [0x11] (fun _ => true) (fun _ => true) (fun _ => true) true 0x30
     (by decide) (by decide)⟩

lemma bungee_loop_ghost (charset str : List Nat) (midpoint : Nat) :
    ∀ (w strIdx sub scale : Nat),
      (∀ p ∈ (oled_bungee_marquee_aux_loop charset str midpoint strIdx sub w scale).2,
        1 ≤ p.1) ∧
      (∀ g ∈ (oled_bungee_marquee_aux_loop charset str midpoint strIdx sub w scale).2.head?,
        g.1 = 1 + scale / 8) ∧
      List.Chain'
        (fun p q => (midpoint < p.2 → p.1 ≤ q.1) ∧ (p.2 ≤ midpoint → q.1 ≤ p.1))
        (oled_bungee_marquee_aux_loop charset str midpoint strIdx sub w scale).2 := by
  intro w
  induction w using Nat.strong_induction_on with
  | _ w ih =>
    intro strIdx sub scale
    by_cases hw : w = 0
    · rw [oled_bungee_marquee_aux_loop]
      simp [hw]
    · rw [oled_bungee_marquee_aux_loop]
      simp only [dif_neg hw]
      have hm : 1 ≤ min (1 + scale / 8) w :=
        le_min (Nat.le_add_right 1 _) (by omega)
      by_cases h2 : w - min (1 + scale / 8) w = 0
      · simp only [h2, if_true]
        refine ⟨?_, ?_, List.chain'_singleton _⟩
        · intro p hp
          simp only [List.mem_singleton] at hp
          subst hp
          exact Nat.le_add_right 1 _
        · intro g hg
          simp only [List.head?_cons, Option.mem_def, Option.some.injEq] at hg
          subst hg
          rfl
      · simp only [h2, if_false]
        have hlt : w - min (1 + scale / 8) w < w := by omega
        have H := ih (w - min (1 + scale / 8) w) hlt
        refine ⟨?_, ?_, ?_⟩
        · intro p hp
          rcases List.mem_cons.mp hp with h | h
          · subst h
            exact Nat.le_add_right 1 _
          · exact (H _ _ _).1 p h
        · intro g hg
          simp only [List.head?_cons, Option.mem_def, Option.some.injEq] at hg
          subst hg
          rfl
        · rw [List.chain'_cons']
          refine ⟨?_, (H _ _ _).2.2⟩
          intro y hy
          have hy1 := (H _ _ _).2.1 y hy
          constructor
          · intro hmid
            rw [hy1, if_pos hmid]
            exact Nat.add_le_add_left (Nat.div_le_div_right (Nat.le_succ scale)) 1
          · intro hmid
            rw [hy1, if_neg (by omega)]
            exact Nat.add_le_add_left (Nat.div_le_div_right (Nat.sub_le scale 1)) 1

/-- C7: within a single `oled_bungee_marquee_aux` call with window width
w ≥ 2 and a non-empty message, the per-slice repeat factor `1 + scale / 8`
is never less than 1, and between consecutive slices it does not decrease
while the remaining window width still exceeds the window midpoint `w >> 1`
and does not increase once the remaining width is at or below the
midpoint. -/
theorem claim_C7 (charset str : List Nat) (offset w : Nat)
    (hstr : str ≠ []) (hw : 2 ≤ w) :
    (∀ p ∈ (oled_bungee_marquee_aux charset str offset w).2, 1 ≤ p.1) ∧
    List.Chain'
      (fun p q : Nat × Nat =>
        (w >>> 1 < p.2 → p.1 ≤ q.1) ∧ (p.2 ≤ w >>> 1 → q.1 ≤ p.1))
      (oled_bungee_marquee_aux charset str offset w).2 := by
  have h := bungee_loop_ghost charset str (w >>> 1) w (offset >>> 3) (offset &&& 0x07) 0
  exact ⟨h.1, h.2.2⟩

/-- C7 witness: the theorem evaluated with an empty glyph table, the message
"A", offset 0 and window width 4. -/
theorem claim_C7_witness :
    ([65] : List Nat) ≠ [] ∧ (2 : Nat) ≤ 4 ∧
    ((∀ p ∈ (oled_bungee_marquee_aux [] [65] 0 4).2, 1 ≤ p.1) ∧
     List.Chain'
       (fun p q : Nat × Nat =>
         ((4 : Nat) >>> 1 < p.2 → p.1 ≤ q.1) ∧ (p.2 ≤ (4 : Nat) >>> 1 → q.1 ≤ p.1))
       (oled_bungee_marquee_aux [] [65] 0 4).2) :=
  ⟨by decide, by decide, claim_C7 [] [65] 0 4 (by decide) (by decide)⟩

lemma and_63_eq_mod_64 (n : Nat) : n &&& 63 = n % 64 := by
  have h := Nat.and_pow_two_sub_one_eq_mod n 6
  simpa using h

lemma oled_wobble_upper_shifts (cosTbl charset : List Nat) :
    ∀ (cs : List Nat) (shift : Nat),
      (oled_wobble_upper cosTbl charset cs shift).2 =
        (List.range (8 * cs.length)).map fun k => cosTbl.getD ((shift + k) % 64) 0 := by
  intro cs
  induction cs with
  | nil => intro shift; rfl
  | cons c cs ih =>
      intro shift
      simp only [oled_wobble_upper]
      rw [ih (shift + 8)]
      have hlen : 8 * (c :: cs).length = 8 + 8 * cs.length := by
        simp [List.length_cons]
        ring
      rw [hlen, List.range_add, List.map_append, List.map_map]
      simp only [and_63_eq_mod_64, Function.comp_def, Nat.add_assoc]

lemma oled_wobble_lower_shifts (cosTbl charset : List Nat) :
    ∀ (cs : List Nat) (shift : Nat),
      (oled_wobble_lower cosTbl charset cs shift).2 =
        (List.range (8 * cs.length)).map fun k => 8 - cosTbl.getD ((shift + k) % 64) 0 := by
  intro cs
  induction cs with
  | nil => intro shift; rfl
  | cons c cs ih =>
      intro shift
      simp only [oled_wobble_lower]
      rw [ih (shift + 8)]
      have hlen : 8 * (c :: cs).length = 8 + 8 * cs.length := by
        simp [List.length_cons]
        ring
      rw [hlen, List.range_add, List.map_append, List.map_map]
      simp only [and_63_eq_mod_64, Function.comp_def, Nat.add_assoc]

/-- C8: for every output column k of an `oled_wobble` call with phase p, the
upper-page pass shifts the glyph byte left by
s = cosTable[(p + k) mod 64] and the lower-page pass shifts the
corresponding glyph byte right by 8 - s, taken from the same table entry at
the same index; since every table entry is at most 8, the two shift amounts
always sum to exactly 8. -/
theorem claim_C8 (cosTbl charset str : List Nat) (p : Nat)
    (htbl : cos_table_spec cosTbl) :
    (oled_wobble_upper cosTbl charset str p).2 =
      (List.range (8 * str.length)).map (fun k => cosTbl.getD ((p + k) % 64) 0) ∧
    (oled_wobble_lower cosTbl charset str p).2 =
      (List.range (8 * str.length)).map (fun k => 8 - cosTbl.getD ((p + k) % 64) 0) ∧
    ∀ k, cosTbl.getD ((p + k) % 64) 0 ≤ 8 ∧
      cosTbl.getD ((p + k) % 64) 0 + (8 - cosTbl.getD ((p + k) % 64) 0) = 8 := by
  refine ⟨oled_wobble_upper_shifts cosTbl charset str p,
    oled_wobble_lower_shifts cosTbl charset str p, ?_⟩
  intro k
  have hidx : (p + k) % 64 < cosTbl.length := by
    rw [htbl.1]
    exact Nat.mod_lt _ (by norm_num)
  have hmem : cosTbl.getD ((p + k) % 64) 0 ∈ cosTbl := by
    rw [List.getD_eq_getElem _ _ hidx]
    exact List.getElem_mem hidx
  have h8 : cosTbl.getD ((p + k) % 64) 0 ≤ 8 := htbl.2 _ hmem
  omega

/-- C8 witness: the theorem evaluated at the constant table of 64 entries of
value 4, an empty glyph table, the message "A" and phase 0. -/
theorem claim_C8_witness :
    cos_table_spec (List.replicate 64 4) ∧
    ((oled_wobble_upper (List.replicate 64 4) [] [65] 0).2 =
        (List.range (8 * ([65] : List Nat).length)).map
          (fun k => (List.replicate 64 4).getD ((0 + k) % 64) 0) ∧
      (oled_wobble_lower (List.replicate 64 4) [] [65] 0).2 =
        (List.range (8 * ([65] : List Nat).length)).map
          (fun k => 8 - (List.replicate 64 4).getD ((0 + k) % 64) 0) ∧
      ∀ k, (List.replicate 64 4).getD ((0 + k) % 64) 0 ≤ 8 ∧
        (List.replicate 64 4).getD ((0 + k) % 64) 0 +
          (8 - (List.replicate 64 4).getD ((0 + k) % 64) 0) = 8) :=
  ⟨by decide, claim_C8 (List.replicate 64 4) [] [65] 0 (by decide)⟩

end TeensyOled
